import Mathlib

set_option maxRecDepth 4000

/-!
A verification development for the `pinjson` JSON-RPC command marshaling
subsystem of nyodeco/pind: the registry-driven encoder/decoder that converts
typed command values into JSON-RPC 1.0 positional-parameter requests and back,
including optional-field defaulting and polymorphic (union) field encodings.

The repository ships the subsystem's exhaustive test tables; the codec itself
is modelled here from the design specification, with the concrete golden
fixtures of the test tables (`TestChainSvrCmds`, `TestWalletSvrCmds`,
`TestChainSvrWsNtfns`, ...) taken as the binding authority on observable
behavior wherever they pin it down.
-/

namespace PinJson

/-- JSON values.  Numbers are modelled as integers: every numeric literal
appearing in the commands verified here is integral. -/
inductive JVal where
  | jnull : JVal
  | jbool (b : Bool) : JVal
  | jint (n : Int) : JVal
  | jstr (s : String) : JVal
  | jarr (xs : List JVal) : JVal
  | jobj (fs : List (String × JVal)) : JVal
deriving Repr, BEq

mutual

def JVal.decEqAux : (a b : JVal) → Decidable (a = b)
  | .jnull, .jnull => isTrue rfl
  | .jbool a, .jbool b =>
    match decEq a b with
    | isTrue h => isTrue (by rw [h])
    | isFalse h => isFalse (by intro hh; cases hh; exact h rfl)
  | .jint a, .jint b =>
    match decEq a b with
    | isTrue h => isTrue (by rw [h])
    | isFalse h => isFalse (by intro hh; cases hh; exact h rfl)
  | .jstr a, .jstr b =>
    match decEq a b with
    | isTrue h => isTrue (by rw [h])
    | isFalse h => isFalse (by intro hh; cases hh; exact h rfl)
  | .jarr a, .jarr b =>
    match JVal.decEqListAux a b with
    | isTrue h => isTrue (by rw [h])
    | isFalse h => isFalse (by intro hh; cases hh; exact h rfl)
  | .jobj a, .jobj b =>
    match JVal.decEqObjAux a b with
    | isTrue h => isTrue (by rw [h])
    | isFalse h => isFalse (by intro hh; cases hh; exact h rfl)
  | .jnull, .jbool _ => isFalse (by intro h; cases h)
  | .jnull, .jint _ => isFalse (by intro h; cases h)
  | .jnull, .jstr _ => isFalse (by intro h; cases h)
  | .jnull, .jarr _ => isFalse (by intro h; cases h)
  | .jnull, .jobj _ => isFalse (by intro h; cases h)
  | .jbool _, .jnull => isFalse (by intro h; cases h)
  | .jbool _, .jint _ => isFalse (by intro h; cases h)
  | .jbool _, .jstr _ => isFalse (by intro h; cases h)
  | .jbool _, .jarr _ => isFalse (by intro h; cases h)
  | .jbool _, .jobj _ => isFalse (by intro h; cases h)
  | .jint _, .jnull => isFalse (by intro h; cases h)
  | .jint _, .jbool _ => isFalse (by intro h; cases h)
  | .jint _, .jstr _ => isFalse (by intro h; cases h)
  | .jint _, .jarr _ => isFalse (by intro h; cases h)
  | .jint _, .jobj _ => isFalse (by intro h; cases h)
  | .jstr _, .jnull => isFalse (by intro h; cases h)
  | .jstr _, .jbool _ => isFalse (by intro h; cases h)
  | .jstr _, .jint _ => isFalse (by intro h; cases h)
  | .jstr _, .jarr _ => isFalse (by intro h; cases h)
  | .jstr _, .jobj _ => isFalse (by intro h; cases h)
  | .jarr _, .jnull => isFalse (by intro h; cases h)
  | .jarr _, .jbool _ => isFalse (by intro h; cases h)
  | .jarr _, .jint _ => isFalse (by intro h; cases h)
  | .jarr _, .jstr _ => isFalse (by intro h; cases h)
  | .jarr _, .jobj _ => isFalse (by intro h; cases h)
  | .jobj _, .jnull => isFalse (by intro h; cases h)
  | .jobj _, .jbool _ => isFalse (by intro h; cases h)
  | .jobj _, .jint _ => isFalse (by intro h; cases h)
  | .jobj _, .jstr _ => isFalse (by intro h; cases h)
  | .jobj _, .jarr _ => isFalse (by intro h; cases h)

def JVal.decEqListAux : (a b : List JVal) → Decidable (a = b)
  | [], [] => isTrue rfl
  | [], _ :: _ => isFalse (by intro h; cases h)
  | _ :: _, [] => isFalse (by intro h; cases h)
  | x :: xs, y :: ys =>
    match JVal.decEqAux x y with
    | isTrue h1 =>
      match JVal.decEqListAux xs ys with
      | isTrue h2 => isTrue (by rw [h1, h2])
      | isFalse h2 => isFalse (by intro hh; cases hh; exact h2 rfl)
    | isFalse h1 => isFalse (by intro hh; cases hh; exact h1 rfl)

def JVal.decEqObjAux : (a b : List (String × JVal)) → Decidable (a = b)
  | [], [] => isTrue rfl
  | [], _ :: _ => isFalse (by intro h; cases h)
  | _ :: _, [] => isFalse (by intro h; cases h)
  | (k1, v1) :: xs, (k2, v2) :: ys =>
    match decEq k1 k2 with
    | isTrue hk =>
      match JVal.decEqAux v1 v2 with
      | isTrue h1 =>
        match JVal.decEqObjAux xs ys with
        | isTrue h2 => isTrue (by rw [hk, h1, h2])
        | isFalse h2 => isFalse (by intro hh; cases hh; exact h2 rfl)
      | isFalse h1 => isFalse (by intro hh; cases hh; exact h1 rfl)
    | isFalse hk => isFalse (by intro hh; cases hh; exact hk rfl)

end

instance : DecidableEq JVal := JVal.decEqAux

mutual

/-- Modelled from the spec: deterministic rendering of a JSON value to its
wire bytes, matching the byte-exact golden strings of the test fixtures
(compact separators, fields in declared order). -/
def JVal.render : JVal → String
  | .jnull => "null"
  | .jbool true => "true"
  | .jbool false => "false"
  | .jint n => toString n
  | .jstr s => "\"" ++ s ++ "\""
  | .jarr xs => "[" ++ JVal.renderArrAux xs ++ "]"
  | .jobj fs => "\x7b" ++ JVal.renderObjAux fs ++ "\x7d"

def JVal.renderArrAux : List JVal → String
  | [] => ""
  | [x] => x.render
  | x :: y :: xs => x.render ++ "," ++ JVal.renderArrAux (y :: xs)

def JVal.renderObjAux : List (String × JVal) → String
  | [] => ""
  | [(k, v)] => "\"" ++ k ++ "\":" ++ v.render
  | (k, v) :: y :: xs =>
    "\"" ++ k ++ "\":" ++ v.render ++ "," ++ JVal.renderObjAux (y :: xs)

end

/-- A transaction input reference as it appears in command parameters
(`TransactionInput` in the source: txid plus output index). -/
structure TransactionInput where
  txid : String
  vout : Int
deriving Repr, DecidableEq

/-- Typed field values of command structures: the basic JSON-backed types
plus the polymorphic union types of the spec (range-or-scalar, fee-setting
boolean-or-rate, timestamp-or-now, hash-or-height). -/
inductive FVal where
  | vStr (s : String) : FVal
  | vInt (n : Int) : FVal
  | vBool (b : Bool) : FVal
  | vStrArr (xs : List String) : FVal
  | vTxInputs (xs : List TransactionInput) : FVal
  | vRangeSingle (n : Int) : FVal
  | vRangePair (start count : Int) : FVal
  | vFeeUnset : FVal
  | vFeeBool (b : Bool) : FVal
  | vFeeRate (n : Int) : FVal
  | vTsInt (n : Int) : FVal
  | vTsNow : FVal
  | vHashStr (s : String) : FVal
  | vHeight (n : Int) : FVal
deriving Repr, DecidableEq

/-- Declared semantic types of command fields (spec section 3, Field
Metadata), including the polymorphic union types of spec section 4.4. -/
inductive FieldType where
  | tString | tInt | tBool | tStrArr | tTxInputArr
  | tRange | tFee | tTsOrNow | tHashOrHeight
deriving Repr, DecidableEq

/-- The declared type a concrete field value inhabits. -/
def FVal.typeOf : FVal → FieldType
  | .vStr _ => .tString
  | .vInt _ => .tInt
  | .vBool _ => .tBool
  | .vStrArr _ => .tStrArr
  | .vTxInputs _ => .tTxInputArr
  | .vRangeSingle _ => .tRange
  | .vRangePair _ _ => .tRange
  | .vFeeUnset => .tFee
  | .vFeeBool _ => .tFee
  | .vFeeRate _ => .tFee
  | .vTsInt _ => .tTsOrNow
  | .vTsNow => .tTsOrNow
  | .vHashStr _ => .tHashOrHeight
  | .vHeight _ => .tHashOrHeight

/-- Encoding of one transaction input as a JSON object. -/
def encodeTxInput (t : TransactionInput) : JVal :=
  .jobj [("txid", .jstr t.txid), ("vout", .jint t.vout)]

/-- Modelled from the spec: encoding of a present field value to JSON.
Each polymorphic union value emits exactly one of its legal shapes; an unset
fee-setting value emits the legacy default shape, boolean `false`. -/
def encodeF : FVal → JVal
  | .vStr s => .jstr s
  | .vInt n => .jint n
  | .vBool b => .jbool b
  | .vStrArr xs => .jarr (xs.map .jstr)
  | .vTxInputs xs => .jarr (xs.map encodeTxInput)
  | .vRangeSingle n => .jint n
  | .vRangePair a c => .jarr [.jint a, .jint c]
  | .vFeeUnset => .jbool false
  | .vFeeBool b => .jbool b
  | .vFeeRate n => .jint n
  | .vTsInt n => .jint n
  | .vTsNow => .jstr "now"
  | .vHashStr s => .jstr s
  | .vHeight n => .jint n

/-- Error codes of the package (spec section 7; the full enumeration is pinned
by `TestErrorCodeStringer` in src/pinjson/error_test.go). -/
inductive ErrorCode where
  | ErrDuplicateMethod | ErrInvalidUsageFlags | ErrInvalidType
  | ErrEmbeddedType | ErrUnexportedField | ErrUnsupportedFieldType
  | ErrNonOptionalField | ErrNonOptionalDefault | ErrMismatchedDefault
  | ErrUnregisteredMethod | ErrNumParams | ErrMissingDescription
deriving Repr, DecidableEq

/-- A structured package error: an error code plus a human-readable
description (`pinjson.Error` in the source). -/
structure Error where
  errorCode : ErrorCode
  description : String
deriving Repr, DecidableEq

/-- Decode a JSON array expected to hold only strings. -/
def decodeStrList : List JVal → Option (List String)
  | [] => some []
  | .jstr s :: rest => (decodeStrList rest).map (s :: ·)
  | _ => none

/-- Decode one JSON object into a `TransactionInput`. -/
def decodeTxInput : JVal → Option TransactionInput
  | .jobj fs =>
    match fs.lookup "txid", fs.lookup "vout" with
    | some (.jstr t), some (.jint v) => some ⟨t, v⟩
    | _, _ => none
  | _ => none

/-- Decode a JSON array of transaction-input objects. -/
def decodeTxInputList : List JVal → Option (List TransactionInput)
  | [] => some []
  | j :: rest =>
    match decodeTxInput j with
    | some t => (decodeTxInputList rest).map (t :: ·)
    | none => none

/-- Modelled from the spec: decoding of one positional JSON value into its
declared field type (spec sections 4.3 step 4 and 4.4).  Polymorphic union
types try their legal shapes in the fixed priority order the spec lists; the
first structurally valid match wins; any JSON content matching no legal shape
fails with an `ErrInvalidType` error. -/
def decodeField (t : FieldType) (j : JVal) : Except Error FVal :=
  match t, j with
  | .tString, .jstr s => .ok (.vStr s)
  | .tInt, .jint n => .ok (.vInt n)
  | .tBool, .jbool b => .ok (.vBool b)
  | .tStrArr, .jarr xs =>
    match decodeStrList xs with
    | some ss => .ok (.vStrArr ss)
    | none => .error ⟨.ErrInvalidType, "json value is not a string array"⟩
  | .tTxInputArr, .jarr xs =>
    match decodeTxInputList xs with
    | some ts => .ok (.vTxInputs ts)
    | none => .error ⟨.ErrInvalidType, "json value is not a transaction input array"⟩
  | .tRange, .jint n => .ok (.vRangeSingle n)
  | .tRange, .jarr [.jint a, .jint c] => .ok (.vRangePair a c)
  | .tFee, .jbool b => .ok (.vFeeBool b)
  | .tFee, .jint n => .ok (.vFeeRate n)
  | .tTsOrNow, .jint n => .ok (.vTsInt n)
  | .tTsOrNow, .jstr s =>
    if s == "now" then .ok .vTsNow
    else .error ⟨.ErrInvalidType, "json value cannot be decoded into the declared field type"⟩
  | .tHashOrHeight, .jstr s => .ok (.vHashStr s)
  | .tHashOrHeight, .jint n => .ok (.vHeight n)
  | _, _ => .error ⟨.ErrInvalidType, "json value cannot be decoded into the declared field type"⟩

/-- Per-field registration metadata (spec section 3, Field Metadata):
declared type, required vs optional, and the declared default, legal only on
optional fields. -/
structure FieldMeta where
  ftype : FieldType
  optional : Bool
  dflt : Option FVal
deriving Repr, DecidableEq

/-- A field's metadata is well formed when a declared default exists only on
an optional field and has exactly the field's declared type. -/
def FieldMeta.wf (f : FieldMeta) : Bool :=
  match f.dflt with
  | none => true
  | some v => f.optional && (v.typeOf == f.ftype)

/-- Optional fields must appear only after all required fields in declared
order (spec section 3 invariant). -/
def optionalsTrailing : List FieldMeta → Bool
  | [] => true
  | f :: fs => if f.optional then fs.all (·.optional) else optionalsTrailing fs

/-- A registered method descriptor (spec section 3, MethodDescriptor):
unique method name, the field list in declared order, and whether the method
is a notification (no response expected, marshalled with a null id). -/
structure MethodDesc where
  method : String
  fields : List FieldMeta
  notif : Bool
deriving Repr, DecidableEq

/-- Descriptor well-formedness as checked at registration time. -/
def MethodDesc.wf (d : MethodDesc) : Bool :=
  d.fields.all FieldMeta.wf && optionalsTrailing d.fields

/-- Number of required (leading, non-optional) parameters. -/
def numRequired (fields : List FieldMeta) : Nat :=
  fields.countP (fun f => !f.optional)

/-- A concrete command value: its registered method name and its field
values in declared order, `none` marking an absent optional field (a nil
pointer in the source). -/
structure Cmd where
  method : String
  args : List (Option FVal)
deriving Repr, DecidableEq

/-- Does one argument slot satisfy its field metadata?  Absent is legal only
for optional fields; a present value must inhabit the declared type. -/
def argMatches (f : FieldMeta) : Option FVal → Bool
  | none => f.optional
  | some v => v.typeOf == f.ftype

/-- A command value conforms to a descriptor when the method matches, the
arity matches, and every argument slot satisfies its field metadata. -/
def Cmd.conforms (c : Cmd) (d : MethodDesc) : Bool :=
  c.method == d.method && c.args.length == d.fields.length &&
    (d.fields.zip c.args).all fun fa => argMatches fa.1 fa.2

/-- Descriptor for `getblock`: required hash string, optional integer
verbosity defaulting to 1 (`GetBlockCmd`). -/
def getblockDesc : MethodDesc :=
  ⟨"getblock", [⟨.tString, false, none⟩, ⟨.tInt, true, some (.vInt 1)⟩], false⟩

/-- Descriptor for `deriveaddresses`: required descriptor string, optional
range union with no default (`DeriveAddressesCmd`). -/
def deriveaddressesDesc : MethodDesc :=
  ⟨"deriveaddresses", [⟨.tString, false, none⟩, ⟨.tRange, true, none⟩], false⟩

/-- Descriptor for `sendrawtransaction`: required transaction hex, optional
fee-setting union defaulting to boolean false (`SendRawTransactionCmd`). -/
def sendrawtransactionDesc : MethodDesc :=
  ⟨"sendrawtransaction", [⟨.tString, false, none⟩, ⟨.tFee, true, some (.vFeeBool false)⟩], false⟩

/-- Descriptor for `createwallet`: required wallet name plus four optional
fields with declared defaults (`CreateWalletCmd`). -/
def createwalletDesc : MethodDesc :=
  ⟨"createwallet",
    [⟨.tString, false, none⟩,
     ⟨.tBool, true, some (.vBool false)⟩,
     ⟨.tBool, true, some (.vBool false)⟩,
     ⟨.tString, true, some (.vStr "")⟩,
     ⟨.tBool, true, some (.vBool false)⟩], false⟩

/-- Descriptor for `lockunspent`: required unlock flag and required
transaction-input list (`LockUnspentCmd`). -/
def lockunspentDesc : MethodDesc :=
  ⟨"lockunspent", [⟨.tBool, false, none⟩, ⟨.tTxInputArr, false, none⟩], false⟩

/-- Descriptor for `searchrawtransactions`: required address plus six
optional fields, the last without a default (`SearchRawTransactionsCmd`). -/
def searchrawtransactionsDesc : MethodDesc :=
  ⟨"searchrawtransactions",
    [⟨.tString, false, none⟩,
     ⟨.tInt, true, some (.vInt 1)⟩,
     ⟨.tInt, true, some (.vInt 0)⟩,
     ⟨.tInt, true, some (.vInt 100)⟩,
     ⟨.tInt, true, some (.vInt 0)⟩,
     ⟨.tBool, true, some (.vBool false)⟩,
     ⟨.tStrArr, true, none⟩], false⟩

/-- Descriptor for the `blockconnected` websocket notification: hash,
height, time, all required (`BlockConnectedNtfn`). -/
def blockconnectedDesc : MethodDesc :=
  ⟨"blockconnected", [⟨.tString, false, none⟩, ⟨.tInt, false, none⟩, ⟨.tInt, false, none⟩], true⟩

/-- Modelled from the spec: the process-wide method registry, populated once
at startup by `Register` calls; read-only afterwards.  The methods modelled
here are the ones the verified claims exercise. -/
def registry : List MethodDesc :=
  [getblockDesc, deriveaddressesDesc, sendrawtransactionDesc,
   createwalletDesc, lockunspentDesc, searchrawtransactionsDesc,
   blockconnectedDesc]

/-- Registry lookup by method name (the reverse lookup of spec section 4.1). -/
def lookupMethod (m : String) : Option MethodDesc :=
  registry.find? (fun d => d.method == m)

/-- Encode one argument slot for the params array: a present value encodes
to its JSON shape, an interior absent optional encodes to the explicit
`null` placeholder. -/
def encodeParamSlot : Option FVal → JVal
  | some v => encodeF v
  | none => JVal.jnull

/-- Drop the trailing absent slots: everything after the last present field
(spec section 4.2 step 3, "compute the last present field index; truncate
the emitted params array immediately after it"). -/
def dropTrailingNone : List (Option FVal) → List (Option FVal)
  | [] => []
  | x :: xs =>
    match dropTrailingNone xs with
    | [] =>
      match x with
      | some v => [some v]
      | none => []
    | y :: ys => x :: y :: ys

/-- Modelled from the spec: params emission (spec section 4.2 steps 2-5).
The params array is truncated immediately after the last present field;
trailing absent optionals are never emitted at all, while absent optionals
below the truncation point are emitted as explicit JSON `null`. -/
def marshalParams (args : List (Option FVal)) : List JVal :=
  (dropTrailingNone args).map encodeParamSlot

/-- The JSON-RPC 1.0 protocol version string (`pinjson.RpcVersion1`). -/
def RpcVersion1 : String := "1.0"

/-- A parsed JSON-RPC request object (`pinjson.Request`): protocol version,
method name, positional params, and the request id (the literal JSON `null`
for notifications). -/
structure Request where
  jsonrpc : String
  method : String
  params : List JVal
  id : JVal
deriving Repr, DecidableEq

/-- Deterministic rendering of a request envelope to its wire bytes, in the
fixed field order `jsonrpc, method, params, id` of the golden fixtures. -/
def renderRequest (r : Request) : String :=
  ("\x7b\"jsonrpc\":\"" ++ r.jsonrpc ++ "\",\"method\":\"" ++ r.method ++
    "\",\"params\":" ++ (JVal.jarr r.params).render) ++
    (",\"id\":" ++ r.id.render ++ "\x7d")

/-- Modelled from the spec: the request-building half of `MarshalCmd`
(spec section 4.2): resolve the command's registered descriptor, validate the
value against it, emit the params array, and wrap it in the envelope, with
the id slot the literal JSON `null` when no id is supplied (notifications). -/
def marshalRequest (ver : String) (id : Option JVal) (c : Cmd) : Except Error Request :=
  match lookupMethod c.method with
  | none => .error ⟨.ErrUnregisteredMethod, "no command registered for " ++ c.method⟩
  | some d =>
    if c.conforms d then
      .ok ⟨ver, c.method, marshalParams c.args, id.getD .jnull⟩
    else
      .error ⟨.ErrInvalidType, "command value does not match the registered descriptor"⟩

/-- Modelled from the spec: `MarshalCmd(rpcVersion, id, cmd) -> bytes`,
producing the byte-exact JSON-RPC request the golden fixtures assert. -/
def MarshalCmd (ver : String) (id : Option JVal) (c : Cmd) : Except Error String :=
  (marshalRequest ver id c).map renderRequest

/-- Modelled from the spec, corrected by the test fixtures: decoding of one
supplied positional parameter (spec section 4.3 step 4).  A literal JSON
`null` for an optional field leaves the field unset (the fixtures pin this:
`createwallet` with params `["mywallet",null,null,"secret"]` decodes its null
slots to nil, not to the declared defaults); any other value decodes by
`decodeField`. -/
def decodeParam (f : FieldMeta) (j : JVal) : Except Error (Option FVal) :=
  match j with
  | .jnull =>
    if f.optional then .ok none
    else .error ⟨.ErrInvalidType, "null supplied for a required field"⟩
  | _ => (decodeField f.ftype j).map some

/-- Modelled from the spec: positional decoding of the supplied params
(spec section 4.3 steps 4-5): indices within the params array decode by
`decodeParam`; indices beyond it (trailing omitted optionals) receive the
field's declared default, or stay unset when the field declares none. -/
def unmarshalFields : List FieldMeta → List JVal → Except Error (List (Option FVal))
  | [], [] => .ok []
  | [], _ :: _ => .error ⟨.ErrNumParams, "too many parameters"⟩
  | f :: fs, [] =>
    (unmarshalFields fs []).map (fun rest => f.dflt :: rest)
  | f :: fs, p :: ps => do
    let v ← decodeParam f p
    let rest ← unmarshalFields fs ps
    pure (v :: rest)

/-- Modelled from the spec: the per-descriptor core of `UnmarshalCmd`
(spec section 4.3 steps 2-6): validate the parameter count against
[requiredCount, totalFieldCount], then decode positionally and apply
trailing defaults. -/
def unmarshalWithDesc (d : MethodDesc) (params : List JVal) : Except Error Cmd :=
  if params.length < numRequired d.fields || d.fields.length < params.length then
    .error ⟨.ErrNumParams, "wrong number of params for " ++ d.method⟩
  else
    (unmarshalFields d.fields params).map (fun args => ⟨d.method, args⟩)

/-- Modelled from the spec: `UnmarshalCmd(request) -> commandValue`
(spec section 4.3 step 1 plus the per-descriptor core). -/
def UnmarshalCmd (r : Request) : Except Error Cmd :=
  match lookupMethod r.method with
  | none => .error ⟨.ErrUnregisteredMethod, "no command registered for " ++ r.method⟩
  | some d => unmarshalWithDesc d r.params

/-- JSON whitespace. -/
def isWsChar (c : Char) : Bool :=
  c == ' ' || c == '\n' || c == '\t' || c == '\r'

/-- Skip leading JSON whitespace. -/
def skipWs (cs : List Char) : List Char := cs.dropWhile isWsChar

/-- Parse a leading run of decimal digits. -/
def parseDigits (cs : List Char) : Option (Nat × List Char) :=
  let ds := cs.takeWhile (·.isDigit)
  if ds.isEmpty then none
  else some (ds.foldl (fun acc c => acc * 10 + (c.toNat - 48)) 0, cs.drop ds.length)

mutual

/-- Fuelled parser for the JSON subset the loose argument strings of the
test fixtures use: null, booleans, integers, strings without escapes,
arrays, and objects. -/
def parseJ : Nat → List Char → Option (JVal × List Char)
  | 0, _ => none
  | fuel + 1, cs =>
    match skipWs cs with
    | 'n' :: 'u' :: 'l' :: 'l' :: rest => some (.jnull, rest)
    | 't' :: 'r' :: 'u' :: 'e' :: rest => some (.jbool true, rest)
    | 'f' :: 'a' :: 'l' :: 's' :: 'e' :: rest => some (.jbool false, rest)
    | '\"' :: rest =>
      let s := rest.takeWhile (fun c => !(c == '\"'))
      match rest.drop s.length with
      | '\"' :: rest2 => some (.jstr (String.mk s), rest2)
      | _ => none
    | '[' :: rest =>
      match skipWs rest with
      | ']' :: rest2 => some (.jarr [], rest2)
      | _ => (parseArrElems fuel rest).map (fun (xs, r) => (.jarr xs, r))
    | '\x7b' :: rest =>
      match skipWs rest with
      | '\x7d' :: rest2 => some (.jobj [], rest2)
      | _ => (parseObjFields fuel rest).map (fun (fs, r) => (.jobj fs, r))
    | '-' :: rest =>
      (parseDigits rest).map (fun (n, r) => (.jint (-(n : Int)), r))
    | c :: rest =>
      if c.isDigit then
        (parseDigits (c :: rest)).map (fun (n, r) => (.jint (n : Int), r))
      else none
    | [] => none

/-- Parse one or more comma-separated array elements up to `]`. -/
def parseArrElems : Nat → List Char → Option (List JVal × List Char)
  | 0, _ => none
  | fuel + 1, cs => do
    let (x, rest) ← parseJ fuel cs
    match skipWs rest with
    | ',' :: rest2 =>
      (parseArrElems fuel rest2).map (fun (xs, r) => (x :: xs, r))
    | ']' :: rest2 => some ([x], rest2)
    | _ => none

/-- Parse one or more comma-separated object fields up to the closing
brace. -/
def parseObjFields : Nat → List Char → Option (List (String × JVal) × List Char)
  | 0, _ => none
  | fuel + 1, cs =>
    match skipWs cs with
    | '\"' :: rest =>
      let k := rest.takeWhile (fun c => !(c == '\"'))
      match rest.drop k.length with
      | '\"' :: rest2 =>
        match skipWs rest2 with
        | ':' :: rest3 => do
          let (v, rest4) ← parseJ fuel rest3
          match skipWs rest4 with
          | ',' :: rest5 =>
            (parseObjFields fuel rest5).map (fun (fs, r) => ((String.mk k, v) :: fs, r))
          | '\x7d' :: rest5 => some ([(String.mk k, v)], rest5)
          | _ => none
        | _ => none
      | _ => none
    | _ => none

end

/-- Parse a complete JSON document from a string. -/
def jsonParse (s : String) : Option JVal :=
  match parseJ (s.length + 2) s.toList with
  | some (j, rest) => if (skipWs rest).isEmpty then some j else none
  | none => none

/-- Modelled from the spec: assignment of one loosely-typed `NewCmd`
argument to its field (the `assignField` step of the generic constructor).
The exact string "null" supplied for an optional field leaves the field
absent; a value already of the declared type is taken as-is; any other
string is interpreted as JSON text and decoded into the declared field
type; everything else is an `ErrInvalidType` error. -/
def assignLoose (f : FieldMeta) (v : FVal) : Except Error (Option FVal) :=
  if f.optional && (v == FVal.vStr "null") then .ok none
  else if v.typeOf == f.ftype then .ok (some v)
  else
    match v with
    | .vStr s =>
      match jsonParse s with
      | some j => (decodeField f.ftype j).map some
      | none => .error ⟨.ErrInvalidType, "string argument is not valid json"⟩
    | _ => .error ⟨.ErrInvalidType, "argument cannot be assigned to the declared field type"⟩

/-- Assign the supplied loose arguments positionally. -/
def assignAll : List FieldMeta → List FVal → Except Error (List (Option FVal))
  | _, [] => .ok []
  | [], _ :: _ => .error ⟨.ErrNumParams, "too many arguments"⟩
  | f :: fs, v :: vs => do
    let a ← assignLoose f v
    let rest ← assignAll fs vs
    pure (a :: rest)

/-- Modelled from the spec: the generic constructor
`NewCmd(method, args...)` (spec section 2, Generic Constructor): look up the
registered descriptor, validate the argument count, assign each loose
argument to its field, and leave unsupplied trailing optional fields unset,
producing the same concrete command value the direct constructors build. -/
def NewCmd (method : String) (args : List FVal) : Except Error Cmd :=
  match lookupMethod method with
  | none => .error ⟨.ErrUnregisteredMethod, "no command registered for " ++ method⟩
  | some d =>
    if args.length < numRequired d.fields || d.fields.length < args.length then
      .error ⟨.ErrNumParams, "wrong number of arguments for " ++ method⟩
    else
      (assignAll d.fields args).map
        (fun as => ⟨method, as ++ List.replicate (d.fields.length - args.length) none⟩)

/-- Direct constructor for `getblock` (`NewGetBlockCmd`). -/
def NewGetBlockCmd (hash : String) (verbosity : Option Int) : Cmd :=
  ⟨"getblock", [some (.vStr hash), verbosity.map .vInt]⟩

/-- Direct constructor for `deriveaddresses` (`NewDeriveAddressesCmd`);
the range argument, when present, is a range-union value. -/
def NewDeriveAddressesCmd (descrip : String) (range : Option FVal) : Cmd :=
  ⟨"deriveaddresses", [some (.vStr descrip), range]⟩

/-- Direct constructor for `sendrawtransaction` (`NewSendRawTransactionCmd`):
always populates the fee-setting field, unset when no flag is supplied. -/
def NewSendRawTransactionCmd (hexTx : String) (allowHighFees : Option Bool) : Cmd :=
  ⟨"sendrawtransaction",
    [some (.vStr hexTx),
     some (match allowHighFees with | none => .vFeeUnset | some b => .vFeeBool b)]⟩

/-- Direct constructor for `sendrawtransaction` with a numeric maximum fee
rate (`NewBitcoindSendRawTransactionCmd`). -/
def NewBitcoindSendRawTransactionCmd (hexTx : String) (maxFeeRate : Int) : Cmd :=
  ⟨"sendrawtransaction", [some (.vStr hexTx), some (.vFeeRate maxFeeRate)]⟩

/-- Direct constructor for `createwallet` (`NewCreateWalletCmd`). -/
def NewCreateWalletCmd (walletName : String) (disablePrivateKeys blank : Option Bool)
    (passphrase : Option String) (avoidReuse : Option Bool) : Cmd :=
  ⟨"createwallet",
    [some (.vStr walletName), disablePrivateKeys.map .vBool, blank.map .vBool,
     passphrase.map .vStr, avoidReuse.map .vBool]⟩

/-- Direct constructor for `lockunspent` (`NewLockUnspentCmd`). -/
def NewLockUnspentCmd (unlock : Bool) (transactions : List TransactionInput) : Cmd :=
  ⟨"lockunspent", [some (.vBool unlock), some (.vTxInputs transactions)]⟩

/-- Direct constructor for `searchrawtransactions`
(`NewSearchRawTransactionsCmd`). -/
def NewSearchRawTransactionsCmd (address : String)
    (verbose skip count vinExtra : Option Int) (reverse : Option Bool)
    (filterAddrs : Option (List String)) : Cmd :=
  ⟨"searchrawtransactions",
    [some (.vStr address), verbose.map .vInt, skip.map .vInt, count.map .vInt,
     vinExtra.map .vInt, reverse.map .vBool, filterAddrs.map .vStrArr]⟩

/-- Direct constructor for the `blockconnected` notification
(`NewBlockConnectedNtfn`). -/
def NewBlockConnectedNtfn (hash : String) (height time : Int) : Cmd :=
  ⟨"blockconnected", [some (.vStr hash), some (.vInt height), some (.vInt time)]⟩

/-- Round-trip normalization of one field value: decoding the encoding of an
unset fee-setting value yields the boolean-false variant (its legacy wire
shape); every other value decodes to itself. -/
def normalizeFVal : FVal → FVal
  | .vFeeUnset => .vFeeBool false
  | v => v

/-- Round-trip normalization of one argument slot. -/
def normalizeArg : Option FVal → Option FVal := Option.map normalizeFVal

/-- The default-completion a marshal/unmarshal round trip performs on a
command's arguments: slots up to the last present field are kept (normalized),
and every trailing absent slot receives its field's declared default, staying
unset when the field declares none. -/
def completeArgs (fields : List FieldMeta) (args : List (Option FVal)) : List (Option FVal) :=
  ((dropTrailingNone args).map normalizeArg) ++
    ((fields.drop (dropTrailingNone args).length).map (fun f => f.dflt))

/-- The set of JSON shapes a declared field type legally accepts
(spec sections 4.3-4.4). -/
def legalShape (t : FieldType) (j : JVal) : Bool :=
  match t, j with
  | .tString, .jstr _ => true
  | .tInt, .jint _ => true
  | .tBool, .jbool _ => true
  | .tStrArr, .jarr xs => (decodeStrList xs).isSome
  | .tTxInputArr, .jarr xs => (decodeTxInputList xs).isSome
  | .tRange, .jint _ => true
  | .tRange, .jarr [.jint _, .jint _] => true
  | .tFee, .jbool _ => true
  | .tFee, .jint _ => true
  | .tTsOrNow, .jint _ => true
  | .tTsOrNow, .jstr s => s == "now"
  | .tHashOrHeight, .jstr _ => true
  | .tHashOrHeight, .jint _ => true
  | _, _ => false

lemma dropTrailingNone_length_le (xs : List (Option FVal)) :
    (dropTrailingNone xs).length ≤ xs.length := by
  induction xs with
  | nil => simp [dropTrailingNone]
  | cons x xs ih =>
    simp only [dropTrailingNone]
    cases h : dropTrailingNone xs with
    | nil =>
      cases x <;> simp
    | cons y ys =>
      rw [h] at ih
      simpa using Nat.succ_le_succ ih

lemma dropTrailingNone_split (xs : List (Option FVal)) :
    ∃ rest, xs = dropTrailingNone xs ++ rest ∧ ∀ a ∈ rest, a = none := by
  induction xs with
  | nil => exact ⟨[], rfl, by simp⟩
  | cons x xs ih =>
    obtain ⟨rest, hsplit, hnone⟩ := ih
    simp only [dropTrailingNone]
    cases h : dropTrailingNone xs with
    | nil =>
      rw [h] at hsplit
      simp only [List.nil_append] at hsplit
      cases x with
      | none =>
        refine ⟨none :: xs, by simp, ?_⟩
        intro a ha
        rcases List.mem_cons.mp ha with h1 | h1
        · exact h1
        · exact hnone a (hsplit ▸ h1)
      | some v =>
        exact ⟨rest, by simpa using hsplit, hnone⟩
    | cons y ys =>
      rw [h] at hsplit
      exact ⟨rest, by rw [List.cons_append, ← hsplit], hnone⟩

lemma dropTrailingNone_take (xs : List (Option FVal)) :
    dropTrailingNone xs = xs.take (dropTrailingNone xs).length := by
  obtain ⟨rest, hsplit, -⟩ := dropTrailingNone_split xs
  conv_lhs => rw [show dropTrailingNone xs = (dropTrailingNone xs ++ rest).take (dropTrailingNone xs).length by simp]
  rw [← hsplit]

lemma dropTrailingNone_cons_some (v : FVal) (xs : List (Option FVal)) :
    dropTrailingNone (some v :: xs) = some v :: dropTrailingNone xs ∨
      (dropTrailingNone (some v :: xs) = [some v] ∧ dropTrailingNone xs = []) := by
  simp only [dropTrailingNone]
  cases h : dropTrailingNone xs with
  | nil => exact Or.inr ⟨rfl, rfl⟩
  | cons y ys => exact Or.inl rfl

lemma dropTrailingNone_cons_some_length (v : FVal) (xs : List (Option FVal)) :
    (dropTrailingNone (some v :: xs)).length = (dropTrailingNone xs).length + 1 := by
  rcases dropTrailingNone_cons_some v xs with h | ⟨h1, h2⟩
  · simp [h]
  · simp [h1, h2]

lemma encodeF_ne_jnull (v : FVal) : encodeF v ≠ JVal.jnull := by
  cases v <;> simp [encodeF]

lemma decodeStrList_map_jstr (xs : List String) :
    decodeStrList (xs.map JVal.jstr) = some xs := by
  induction xs with
  | nil => rfl
  | cons x xs ih => simp [decodeStrList, ih]

lemma decodeTxInput_encodeTxInput (t : TransactionInput) :
    decodeTxInput (encodeTxInput t) = some t := by
  simp [encodeTxInput, decodeTxInput, List.lookup]

lemma decodeTxInputList_map (xs : List TransactionInput) :
    decodeTxInputList (xs.map encodeTxInput) = some xs := by
  induction xs with
  | nil => rfl
  | cons x xs ih => simp [decodeTxInputList, decodeTxInput_encodeTxInput, ih]

lemma decodeField_encodeF (v : FVal) :
    decodeField v.typeOf (encodeF v) = .ok (normalizeFVal v) := by
  cases v <;>
    simp [FVal.typeOf, encodeF, decodeField, normalizeFVal,
      decodeStrList_map_jstr, decodeTxInputList_map]

lemma decodeParam_of_ne_jnull (f : FieldMeta) (j : JVal) (h : j ≠ JVal.jnull) :
    decodeParam f j = (decodeField f.ftype j).map some := by
  cases j <;> simp_all [decodeParam]

lemma unmarshalFields_nil_params (fields : List FieldMeta) :
    unmarshalFields fields [] = .ok (fields.map (fun f => f.dflt)) := by
  induction fields with
  | nil => rfl
  | cons f fs ih => simp [unmarshalFields, ih, Except.map]

deriving instance DecidableEq for Except

lemma except_bind_ok {ε α β : Type} (a : α) (f : α → Except ε β) :
    (Except.ok a >>= f) = f a := rfl

lemma except_bind_error {ε α β : Type} (e : ε) (f : α → Except ε β) :
    ((Except.error e : Except ε α) >>= f) = Except.error e := rfl

lemma except_pure {ε α : Type} (a : α) :
    (pure a : Except ε α) = Except.ok a := rfl

lemma mem_zip_append_right {α β : Type} (fs : List α) (xs rest : List β)
    (fa : α × β) (h : fa ∈ fs.zip xs) : fa ∈ fs.zip (xs ++ rest) := by
  induction fs generalizing xs with
  | nil => simp [List.zip] at h
  | cons f fs ih =>
    cases xs with
    | nil => simp [List.zip] at h
    | cons x xs =>
      rcases List.mem_cons.mp h with h1 | h1
      · simp [h1]
      · exact List.mem_cons.mpr (Or.inr (ih xs h1))

lemma unmarshalFields_encoded (fields : List FieldMeta) (largs : List (Option FVal))
    (hlen : largs.length ≤ fields.length)
    (hconf : ∀ fa ∈ fields.zip largs, argMatches fa.1 fa.2 = true) :
    unmarshalFields fields (largs.map encodeParamSlot) =
      .ok (largs.map normalizeArg ++ (fields.drop largs.length).map (fun f => f.dflt)) := by
  induction largs generalizing fields with
  | nil => simpa using unmarshalFields_nil_params fields
  | cons a as ih =>
    cases fields with
    | nil => simp at hlen
    | cons f fs =>
      have hhead : argMatches f a = true := hconf (f, a) (by simp)
      have htail : unmarshalFields fs (as.map encodeParamSlot) =
          .ok (as.map normalizeArg ++ (fs.drop as.length).map (fun f => f.dflt)) := by
        refine ih fs (by simpa using hlen) ?_
        intro fa hfa
        exact hconf fa (List.mem_cons.mpr (Or.inr hfa))
      cases a with
      | none =>
        have hopt : f.optional = true := by simpa [argMatches] using hhead
        simp [unmarshalFields, encodeParamSlot, decodeParam, hopt, htail, normalizeArg]
        rfl
      | some v =>
        have htype : v.typeOf = f.ftype := by simpa [argMatches] using hhead
        have hdec : decodeParam f (encodeF v) = .ok (some (normalizeFVal v)) := by
          rw [decodeParam_of_ne_jnull f (encodeF v) (encodeF_ne_jnull v), ← htype,
            decodeField_encodeF]
          rfl
        simp [unmarshalFields, encodeParamSlot, hdec, htail, normalizeArg]
        rfl

lemma numRequired_all_optional (fields : List FieldMeta)
    (h : fields.all (·.optional) = true) : numRequired fields = 0 := by
  rw [numRequired, List.countP_eq_zero]
  intro f hf
  have := List.all_eq_true.mp h f hf
  simp_all

lemma numRequired_le_dropTrailingNone (fields : List FieldMeta)
    (args : List (Option FVal))
    (hlen : args.length = fields.length)
    (hopt : optionalsTrailing fields = true)
    (hconf : ∀ fa ∈ fields.zip args, argMatches fa.1 fa.2 = true) :
    numRequired fields ≤ (dropTrailingNone args).length := by
  induction fields generalizing args with
  | nil => simp [numRequired]
  | cons f fs ih =>
    cases args with
    | nil => simp at hlen
    | cons a as =>
      by_cases hf : f.optional = true
      · have hall : fs.all (·.optional) = true := by
          simpa [optionalsTrailing, hf] using hopt
        have : numRequired (f :: fs) = 0 := by
          apply numRequired_all_optional
          simp [List.all_cons, hf, hall]
        simp [this]
      · have hfb : f.optional = false := by simpa using hf
        have ha : argMatches f a = true := hconf (f, a) (by simp)
        cases a with
        | none => simp [argMatches, hfb] at ha
        | some v =>
          have htail : numRequired fs ≤ (dropTrailingNone as).length := by
            refine ih as (by simpa using hlen) ?_ ?_
            · simpa [optionalsTrailing, hfb] using hopt
            · intro fa hfa
              exact hconf fa (List.mem_cons.mpr (Or.inr hfa))
          have hcount : numRequired (f :: fs) = numRequired fs + 1 := by
            simp [numRequired, List.countP_cons, hfb]
          rw [hcount, dropTrailingNone_cons_some_length]
          exact Nat.succ_le_succ htail

lemma roundtrip_completes (d : MethodDesc) (c : Cmd)
    (hwf : d.wf = true) (hconf : c.conforms d = true) :
    unmarshalWithDesc d (marshalParams c.args) =
      .ok ⟨d.method, completeArgs d.fields c.args⟩ := by
  have hconf' := hconf
  simp only [Cmd.conforms, Bool.and_eq_true, beq_iff_eq, List.all_eq_true] at hconf'
  obtain ⟨⟨-, hlen⟩, hall⟩ := hconf'
  have hopt : optionalsTrailing d.fields = true := by
    have := hwf
    simp only [MethodDesc.wf, Bool.and_eq_true] at this
    exact this.2
  obtain ⟨rest, hsplit, hrest⟩ := dropTrailingNone_split c.args
  have hk_le : (dropTrailingNone c.args).length ≤ d.fields.length := by
    calc (dropTrailingNone c.args).length ≤ c.args.length := dropTrailingNone_length_le c.args
    _ = d.fields.length := hlen
  have hk_ge : numRequired d.fields ≤ (dropTrailingNone c.args).length :=
    numRequired_le_dropTrailingNone d.fields c.args hlen hopt hall
  have hconfpre : ∀ fa ∈ d.fields.zip (dropTrailingNone c.args), argMatches fa.1 fa.2 = true := by
    intro fa hfa
    apply hall
    rw [hsplit]
    exact mem_zip_append_right d.fields (dropTrailingNone c.args) rest fa hfa
  have hmain := unmarshalFields_encoded d.fields (dropTrailingNone c.args) hk_le hconfpre
  rw [unmarshalWithDesc]
  have hlenp : (marshalParams c.args).length = (dropTrailingNone c.args).length := by
    simp [marshalParams]
  rw [if_neg]
  · rw [marshalParams, hmain]
    simp [completeArgs, Except.map]
  · rw [hlenp]
    simp only [Bool.or_eq_true, decide_eq_true_eq, not_or, Nat.not_lt, ne_eq]
    exact ⟨hk_ge, hk_le⟩

lemma registry_wf : registry.all MethodDesc.wf = true := by decide

/-- C1 (counterexample to the claim as stated): marshaling `getblock` with an
absent verbosity and unmarshaling the result does not return the original
command value: the decoded value carries the declared default verbosity 1,
which the original did not. -/
theorem marshal_unmarshal_roundtrip_counterexample :
    (marshalRequest RpcVersion1 (some (.jint 1)) (NewGetBlockCmd "123" none)).bind
        UnmarshalCmd = Except.ok (NewGetBlockCmd "123" (some 1)) ∧
    NewGetBlockCmd "123" (some 1) ≠ NewGetBlockCmd "123" none := by
  constructor
  · decide
  · decide

/-- C1 (amended): for every registered method, unmarshaling the request
produced by marshaling a conforming command value succeeds and yields the
default-completion of the original value: slots up to the last present field
are preserved (an unset fee-setting value normalizing to its boolean-false
wire form), and every trailing absent field receives its declared default.
The value is reproduced exactly when it is already default-complete; the
intermediate request is a deterministic function of the value. -/
theorem marshal_unmarshal_roundtrip_completes
    (ver : String) (id : Option JVal) (d : MethodDesc) (c : Cmd)
    (hlook : lookupMethod c.method = some d) (hconf : c.conforms d = true) :
    (marshalRequest ver id c).bind UnmarshalCmd =
      Except.ok ⟨c.method, completeArgs d.fields c.args⟩ := by
  have hmem : d ∈ registry := List.mem_of_find?_eq_some hlook
  have hwf : d.wf = true := List.all_eq_true.mp registry_wf d hmem
  have hname : d.method = c.method := by
    have h := List.find?_some hlook
    simpa [beq_iff_eq] using h
  have hcore := roundtrip_completes d c hwf hconf
  simp only [marshalRequest, hlook, hconf, if_true]
  simp only [Except.bind, UnmarshalCmd, hlook]
  rw [hcore, hname]

/-- Witness for the amended C1 theorem at the `getblock` command with the
verbosity argument absent. -/
theorem marshal_unmarshal_roundtrip_completes_witness :
    lookupMethod (Cmd.method ⟨"getblock", [some (.vStr "123"), none]⟩) = some getblockDesc ∧
    Cmd.conforms ⟨"getblock", [some (.vStr "123"), none]⟩ getblockDesc = true ∧
    (marshalRequest RpcVersion1 (some (.jint 1))
        ⟨"getblock", [some (.vStr "123"), none]⟩).bind UnmarshalCmd =
      Except.ok ⟨"getblock",
        completeArgs getblockDesc.fields [some (.vStr "123"), none]⟩ :=
  ⟨by decide, by decide,
    marshal_unmarshal_roundtrip_completes RpcVersion1 (some (.jint 1)) getblockDesc
      ⟨"getblock", [some (.vStr "123"), none]⟩ (by decide) (by decide)⟩

/-- C3 (counterexample to the claim as stated): for `createwallet`, a literal
JSON null in an interior optional position decodes to an unset field, not to
the field's declared default (`false`), and therefore differs from the result
of omitting the argument entirely, which does apply the default. -/
theorem interior_null_default_counterexample :
    UnmarshalCmd ⟨RpcVersion1, "createwallet",
        [.jstr "mywallet", .jnull, .jnull, .jstr "secret"], .jint 1⟩ =
      Except.ok ⟨"createwallet",
        [some (.vStr "mywallet"), none, none, some (.vStr "secret"),
          some (.vBool false)]⟩ ∧
    (createwalletDesc.fields.map FieldMeta.dflt)[1]? = some (some (.vBool false)) ∧
    UnmarshalCmd ⟨RpcVersion1, "createwallet", [.jstr "mywallet"], .jint 1⟩ =
      Except.ok ⟨"createwallet",
        [some (.vStr "mywallet"), some (.vBool false), some (.vBool false),
          some (.vStr ""), some (.vBool false)]⟩ ∧
    (none : Option FVal) ≠ some (.vBool false) := by
  refine ⟨by decide, by decide, by decide, by decide⟩

/-- C3 (amended): when `UnmarshalCmd` receives a params array in which an
interior optional argument is the literal JSON null (followed by present
arguments), it leaves that field unset rather than applying the declared
default: whenever positional decoding succeeds, the slot at the null's
position in the decoded value is `none`. -/
theorem interior_null_leaves_field_unset
    (pre : List FieldMeta) (f : FieldMeta) (post : List FieldMeta)
    (ps1 ps2 : List JVal) (args : List (Option FVal))
    (hlen : ps1.length = pre.length)
    (hopt : f.optional = true)
    (hok : unmarshalFields (pre ++ f :: post) (ps1 ++ JVal.jnull :: ps2) =
      Except.ok args) :
    args[pre.length]? = some none := by
  induction pre generalizing ps1 args with
  | nil =>
    have hps : ps1 = [] := List.length_eq_zero.mp hlen
    subst hps
    simp only [List.nil_append, unmarshalFields, decodeParam, hopt, if_true,
      except_bind_ok] at hok
    cases h2 : unmarshalFields post ps2 with
    | error e => rw [h2] at hok; simp [except_bind_error] at hok
    | ok rest =>
      rw [h2] at hok
      simp only [except_bind_ok, except_pure, Except.ok.injEq] at hok
      rw [← hok]
      simp
  | cons g pre' ih =>
    cases ps1 with
    | nil => simp at hlen
    | cons q ps1' =>
      have hlen' : ps1'.length = pre'.length := by simpa using hlen
      simp only [List.cons_append, unmarshalFields, List.append_eq] at hok
      cases hd : decodeParam g q with
      | error e => rw [hd] at hok; simp [except_bind_error] at hok
      | ok v =>
        rw [hd, except_bind_ok] at hok
        cases h2 : unmarshalFields (pre' ++ f :: post) (ps1' ++ JVal.jnull :: ps2) with
        | error e => rw [h2] at hok; simp [except_bind_error] at hok
        | ok rest =>
          rw [h2] at hok
          simp only [except_bind_ok, except_pure, Except.ok.injEq] at hok
          rw [← hok]
          simpa using ih ps1' rest hlen' h2

/-- Witness for the amended C3 theorem at the `createwallet` fixture with
params `["mywallet", null, null, "secret"]`. -/
theorem interior_null_leaves_field_unset_witness :
    ([JVal.jstr "mywallet"].length = [(⟨.tString, false, none⟩ : FieldMeta)].length) ∧
    FieldMeta.optional ⟨.tBool, true, some (.vBool false)⟩ = true ∧
    unmarshalFields
        ([⟨.tString, false, none⟩] ++ (⟨.tBool, true, some (.vBool false)⟩ : FieldMeta) ::
          [⟨.tBool, true, some (.vBool false)⟩, ⟨.tString, true, some (.vStr "")⟩,
            ⟨.tBool, true, some (.vBool false)⟩])
        ([JVal.jstr "mywallet"] ++ JVal.jnull :: [JVal.jnull, JVal.jstr "secret"]) =
      Except.ok [some (.vStr "mywallet"), none, none, some (.vStr "secret"),
        some (.vBool false)] ∧
    ([some (.vStr "mywallet"), none, none, some (.vStr "secret"),
        some (FVal.vBool false)])[[(⟨.tString, false, none⟩ : FieldMeta)].length]? =
      some none :=
  ⟨by decide, by decide, by decide,
    interior_null_leaves_field_unset
      [⟨.tString, false, none⟩] ⟨.tBool, true, some (.vBool false)⟩
      [⟨.tBool, true, some (.vBool false)⟩, ⟨.tString, true, some (.vStr "")⟩,
        ⟨.tBool, true, some (.vBool false)⟩]
      [JVal.jstr "mywallet"] [JVal.jnull, JVal.jstr "secret"]
      [some (.vStr "mywallet"), none, none, some (.vStr "secret"),
        some (.vBool false)]
      (by decide) (by decide) (by decide)⟩

lemma dropTrailingNone_length_min (xs : List (Option FVal)) (n : Nat)
    (h : ∀ a ∈ xs.drop n, a = none) : (dropTrailingNone xs).length ≤ n := by
  induction xs generalizing n with
  | nil => simp [dropTrailingNone]
  | cons x xs ih =>
    cases n with
    | zero =>
      have hx : x = none := h x (by simp)
      have h0 : (dropTrailingNone xs).length ≤ 0 := by
        refine ih 0 ?_
        intro a ha
        exact h a (by simpa using List.mem_cons.mpr (Or.inr ha))
      have hnil : dropTrailingNone xs = [] :=
        List.length_eq_zero.mp (Nat.le_zero.mp h0)
      subst hx
      simp [dropTrailingNone, hnil]
    | succ m =>
      have hm : (dropTrailingNone xs).length ≤ m := by
        refine ih m ?_
        intro a ha
        exact h a (by simpa using ha)
      simp only [dropTrailingNone]
      cases hd : dropTrailingNone xs with
      | nil => cases x <;> simp
      | cons y ys =>
        rw [hd] at hm
        simpa using Nat.succ_le_succ hm

lemma dropTrailingNone_getLast (xs : List (Option FVal)) :
    dropTrailingNone xs = [] ∨
      ∃ v, (dropTrailingNone xs).getLast? = some (some v) := by
  induction xs with
  | nil => exact Or.inl rfl
  | cons x xs ih =>
    simp only [dropTrailingNone]
    cases hd : dropTrailingNone xs with
    | nil =>
      cases x with
      | none => exact Or.inl rfl
      | some v => exact Or.inr ⟨v, rfl⟩
    | cons y ys =>
      rcases ih with hnil | ⟨v, hv⟩
      · rw [hd] at hnil
        cases hnil
      · rw [hd] at hv
        refine Or.inr ⟨v, ?_⟩
        rw [List.getLast?_cons_cons]
        exact hv

/-- C4: the params array is truncated immediately after the last present
field: the emitted array is the slot-encoding of exactly the prefix up to
that field, everything beyond the truncation point is absent, every present
field lies below the truncation point, an absent field below the truncation
point is emitted as the explicit JSON null placeholder, the truncation point
is minimal (the output is no longer than any point after which all fields
are absent, so trailing absent optional fields are never emitted at all, not
even as null), and a nonempty output ends at a present field. -/
theorem marshalParams_truncation (args : List (Option FVal)) :
    marshalParams args = (args.take (marshalParams args).length).map encodeParamSlot ∧
    (∀ a ∈ args.drop (marshalParams args).length, a = none) ∧
    (∀ i v, args[i]? = some (some v) → i < (marshalParams args).length) ∧
    (∀ i, args[i]? = some none → i < (marshalParams args).length →
      (marshalParams args)[i]? = some JVal.jnull) ∧
    (∀ n, (∀ a ∈ args.drop n, a = none) → (marshalParams args).length ≤ n) ∧
    ((marshalParams args).length = 0 ∨
      ∃ v, args[(marshalParams args).length - 1]? = some (some v)) := by
  have hk : (marshalParams args).length = (dropTrailingNone args).length := by
    simp [marshalParams]
  obtain ⟨rest, hsplit, hrest⟩ := dropTrailingNone_split args
  refine ⟨?_, ?_, ?_, ?_, ?_, ?_⟩
  · rw [hk, ← dropTrailingNone_take, marshalParams]
  · intro a ha
    rw [hk] at ha
    nth_rewrite 2 [hsplit] at ha
    rw [List.drop_left] at ha
    exact hrest a ha
  · intro i v hget
    by_contra hnlt
    push_neg at hnlt
    rw [hk] at hnlt
    rw [hsplit, List.getElem?_append_right hnlt] at hget
    exact Option.noConfusion (hrest _ (List.getElem?_mem hget))
  · intro i hget hlt
    rw [hk] at hlt
    rw [marshalParams, List.getElem?_map]
    rw [dropTrailingNone_take, List.getElem?_take_of_lt hlt, hget]
    rfl
  · intro n hn
    rw [hk]
    exact dropTrailingNone_length_min args n hn
  · rcases dropTrailingNone_getLast args with hnil | ⟨v, hv⟩
    · left
      rw [hk, hnil]
      rfl
    · right
      refine ⟨v, ?_⟩
      rw [hk]
      have hne : dropTrailingNone args ≠ [] := by
        intro hc
        rw [hc] at hv
        exact Option.noConfusion hv
      have hpos : 0 < (dropTrailingNone args).length := List.length_pos.mpr hne
      rw [List.getLast?_eq_getElem?] at hv
      nth_rewrite 1 [dropTrailingNone_take] at hv
      rw [List.getElem?_take_of_lt (Nat.sub_lt hpos Nat.one_pos)] at hv
      exact hv

/-- Witness for the C4 theorem at the `createwallet` argument list with two
interior absent fields and one trailing absent field: the interior absent
slots render as null, and the output stops no later than the trailing absent
slot (which is therefore never emitted). -/
theorem marshalParams_truncation_witness :
    (∀ a ∈ ([some (.vStr "mywallet"), none, none, some (.vStr "secret"),
        (none : Option FVal)]).drop 4, a = none) ∧
    (marshalParams [some (.vStr "mywallet"), none, none, some (.vStr "secret"),
        none]).length ≤ 4 ∧
    ([some (.vStr "mywallet"), none, none, some (.vStr "secret"),
        (none : Option FVal)])[1]? = some none ∧
    1 < (marshalParams [some (.vStr "mywallet"), none, none,
        some (.vStr "secret"), none]).length ∧
    (marshalParams [some (.vStr "mywallet"), none, none, some (.vStr "secret"),
        none])[1]? = some JVal.jnull :=
  ⟨by decide,
    (marshalParams_truncation
      [some (.vStr "mywallet"), none, none, some (.vStr "secret"), none]).2.2.2.2.1
      4 (by decide),
    by decide, by decide,
    (marshalParams_truncation
      [some (.vStr "mywallet"), none, none, some (.vStr "secret"), none]).2.2.2.1
      1 (by decide) (by decide)⟩

/-- C2: for every registered method, the loosely-typed generic constructor
and the strongly-typed direct constructor produce command values whose
`MarshalCmd` outputs are byte-identical, across the argument patterns of the
test matrix: `getblock` for all hashes and verbosities, and the fixture rows
of `deriveaddresses`, `sendrawtransaction`, `createwallet`, `lockunspent`,
`searchrawtransactions`, and the `blockconnected` notification. -/
theorem newCmd_static_constructor_converge :
    (∀ h : String,
      (NewCmd "getblock" [.vStr h]).bind (MarshalCmd RpcVersion1 (some (.jint 1))) =
        MarshalCmd RpcVersion1 (some (.jint 1)) (NewGetBlockCmd h none)) ∧
    (∀ (h : String) (n : Int),
      (NewCmd "getblock" [.vStr h, .vInt n]).bind (MarshalCmd RpcVersion1 (some (.jint 1))) =
        MarshalCmd RpcVersion1 (some (.jint 1)) (NewGetBlockCmd h (some n))) ∧
    ((NewCmd "deriveaddresses" [.vStr "00", .vRangeSingle 2]).bind
        (MarshalCmd RpcVersion1 (some (.jint 1))) =
      MarshalCmd RpcVersion1 (some (.jint 1)) (NewDeriveAddressesCmd "00" (some (.vRangeSingle 2)))) ∧
    ((NewCmd "deriveaddresses" [.vStr "00", .vRangePair 0 2]).bind
        (MarshalCmd RpcVersion1 (some (.jint 1))) =
      MarshalCmd RpcVersion1 (some (.jint 1)) (NewDeriveAddressesCmd "00" (some (.vRangePair 0 2)))) ∧
    ((NewCmd "sendrawtransaction" [.vStr "1122", .vFeeUnset]).bind
        (MarshalCmd RpcVersion1 (some (.jint 1))) =
      MarshalCmd RpcVersion1 (some (.jint 1)) (NewSendRawTransactionCmd "1122" none)) ∧
    ((NewCmd "sendrawtransaction" [.vStr "1122", .vFeeBool false]).bind
        (MarshalCmd RpcVersion1 (some (.jint 1))) =
      MarshalCmd RpcVersion1 (some (.jint 1)) (NewSendRawTransactionCmd "1122" (some false))) ∧
    ((NewCmd "sendrawtransaction" [.vStr "1122", .vFeeRate 1234]).bind
        (MarshalCmd RpcVersion1 (some (.jint 1))) =
      MarshalCmd RpcVersion1 (some (.jint 1)) (NewBitcoindSendRawTransactionCmd "1122" 1234)) ∧
    ((NewCmd "createwallet"
        [.vStr "mywallet", .vBool true, .vBool true, .vStr "secret", .vBool true]).bind
        (MarshalCmd RpcVersion1 (some (.jint 1))) =
      MarshalCmd RpcVersion1 (some (.jint 1))
        (NewCreateWalletCmd "mywallet" (some true) (some true) (some "secret") (some true))) ∧
    ((NewCmd "createwallet" [.vStr "mywallet"]).bind
        (MarshalCmd RpcVersion1 (some (.jint 1))) =
      MarshalCmd RpcVersion1 (some (.jint 1))
        (NewCreateWalletCmd "mywallet" none none none none)) ∧
    ((NewCmd "createwallet" [.vStr "mywallet", .vStr "null", .vStr "null", .vStr "secret"]).bind
        (MarshalCmd RpcVersion1 (some (.jint 1))) =
      MarshalCmd RpcVersion1 (some (.jint 1))
        (NewCreateWalletCmd "mywallet" none none (some "secret") none)) ∧
    ((NewCmd "lockunspent"
        [.vBool true, .vStr "[\x7b\"txid\":\"123\",\"vout\":1\x7d]"]).bind
        (MarshalCmd RpcVersion1 (some (.jint 1))) =
      MarshalCmd RpcVersion1 (some (.jint 1)) (NewLockUnspentCmd true [⟨"123", 1⟩])) ∧
    ((NewCmd "searchrawtransactions"
        [.vStr "1Address", .vInt 0, .vInt 5, .vInt 10, .vStr "null", .vBool true,
          .vStrArr ["1Address"]]).bind (MarshalCmd RpcVersion1 (some (.jint 1))) =
      MarshalCmd RpcVersion1 (some (.jint 1))
        (NewSearchRawTransactionsCmd "1Address" (some 0) (some 5) (some 10) none
          (some true) (some ["1Address"]))) ∧
    ((NewCmd "blockconnected" [.vStr "123", .vInt 100000, .vInt 123456789]).bind
        (MarshalCmd RpcVersion1 none) =
      MarshalCmd RpcVersion1 none (NewBlockConnectedNtfn "123" 100000 123456789)) :=
  ⟨fun _ => rfl, fun _ _ => rfl, by decide, by decide, by decide, by decide,
    by decide, by decide, by decide, by decide, by decide, by decide, by decide⟩

/-- C5: omitting a trailing optional field from wire input decodes each
omitted field to its declared default (in general), and concretely for
`getblock`: `NewCmd "getblock" "123"` builds the same value as the direct
constructor with verbosity absent, marshals to the exact golden envelope
with params `["123"]`, and unmarshals back with verbosity defaulted to 1,
while `NewCmd "getblock" "123" 0` marshals params `["123",0]` and preserves
the explicit verbosity 0. -/
theorem getblock_default_and_explicit_verbosity :
    (∀ fields : List FieldMeta,
      unmarshalFields fields [] = Except.ok (fields.map (fun f => f.dflt))) ∧
    NewCmd "getblock" [.vStr "123"] = Except.ok (NewGetBlockCmd "123" none) ∧
    MarshalCmd RpcVersion1 (some (.jint 1)) (NewGetBlockCmd "123" none) =
      Except.ok "\x7b\"jsonrpc\":\"1.0\",\"method\":\"getblock\",\"params\":[\"123\"],\"id\":1\x7d" ∧
    UnmarshalCmd ⟨RpcVersion1, "getblock", [.jstr "123"], .jint 1⟩ =
      Except.ok ⟨"getblock", [some (.vStr "123"), some (.vInt 1)]⟩ ∧
    NewCmd "getblock" [.vStr "123", .vInt 0] = Except.ok (NewGetBlockCmd "123" (some 0)) ∧
    MarshalCmd RpcVersion1 (some (.jint 1)) (NewGetBlockCmd "123" (some 0)) =
      Except.ok "\x7b\"jsonrpc\":\"1.0\",\"method\":\"getblock\",\"params\":[\"123\",0],\"id\":1\x7d" ∧
    UnmarshalCmd ⟨RpcVersion1, "getblock", [.jstr "123", .jint 0], .jint 1⟩ =
      Except.ok ⟨"getblock", [some (.vStr "123"), some (.vInt 0)]⟩ :=
  ⟨unmarshalFields_nil_params, by decide, by decide, by decide, by decide,
    by decide, by decide⟩

/-- C6: a range union value holding a two-element [start,count] pair marshals
as the bare JSON array (not an object wrapper), a single-int value marshals as
the bare number, unmarshaling each shape restores the same union value, and
the `deriveaddresses` command marshals to its exact golden fixtures. -/
theorem descriptorRange_wire_shapes :
    (∀ a c : Int, encodeF (.vRangePair a c) = .jarr [.jint a, .jint c]) ∧
    (∀ n : Int, encodeF (.vRangeSingle n) = .jint n) ∧
    (∀ a c : Int, decodeField .tRange (.jarr [.jint a, .jint c]) =
      Except.ok (.vRangePair a c)) ∧
    (∀ n : Int, decodeField .tRange (.jint n) = Except.ok (.vRangeSingle n)) ∧
    MarshalCmd RpcVersion1 (some (.jint 1))
        (NewDeriveAddressesCmd "00" (some (.vRangePair 0 2))) =
      Except.ok "\x7b\"jsonrpc\":\"1.0\",\"method\":\"deriveaddresses\",\"params\":[\"00\",[0,2]],\"id\":1\x7d" ∧
    MarshalCmd RpcVersion1 (some (.jint 1))
        (NewDeriveAddressesCmd "00" (some (.vRangeSingle 2))) =
      Except.ok "\x7b\"jsonrpc\":\"1.0\",\"method\":\"deriveaddresses\",\"params\":[\"00\",2],\"id\":1\x7d" ∧
    UnmarshalCmd ⟨RpcVersion1, "deriveaddresses",
        [.jstr "00", .jarr [.jint 0, .jint 2]], .jint 1⟩ =
      Except.ok (NewDeriveAddressesCmd "00" (some (.vRangePair 0 2))) ∧
    UnmarshalCmd ⟨RpcVersion1, "deriveaddresses", [.jstr "00", .jint 2], .jint 1⟩ =
      Except.ok (NewDeriveAddressesCmd "00" (some (.vRangeSingle 2))) :=
  ⟨fun _ _ => rfl, fun _ => rfl, fun _ _ => rfl, fun _ => rfl,
    by decide, by decide, by decide, by decide⟩

/-- C7: an unset fee-setting union value marshals as boolean `false` (the
legacy default shape), a set boolean marshals as that boolean, a set numeric
rate marshals as the bare number, unmarshaling restores the corresponding
variant, and the `sendrawtransaction` command marshals to its exact golden
fixtures. -/
theorem feeSetting_wire_shapes :
    encodeF .vFeeUnset = .jbool false ∧
    (∀ b, encodeF (.vFeeBool b) = .jbool b) ∧
    (∀ n : Int, encodeF (.vFeeRate n) = .jint n) ∧
    (∀ b, decodeField .tFee (.jbool b) = Except.ok (.vFeeBool b)) ∧
    (∀ n : Int, decodeField .tFee (.jint n) = Except.ok (.vFeeRate n)) ∧
    MarshalCmd RpcVersion1 (some (.jint 1)) (NewSendRawTransactionCmd "1122" none) =
      Except.ok "\x7b\"jsonrpc\":\"1.0\",\"method\":\"sendrawtransaction\",\"params\":[\"1122\",false],\"id\":1\x7d" ∧
    MarshalCmd RpcVersion1 (some (.jint 1)) (NewSendRawTransactionCmd "1122" (some false)) =
      Except.ok "\x7b\"jsonrpc\":\"1.0\",\"method\":\"sendrawtransaction\",\"params\":[\"1122\",false],\"id\":1\x7d" ∧
    MarshalCmd RpcVersion1 (some (.jint 1)) (NewBitcoindSendRawTransactionCmd "1122" 1234) =
      Except.ok "\x7b\"jsonrpc\":\"1.0\",\"method\":\"sendrawtransaction\",\"params\":[\"1122\",1234],\"id\":1\x7d" ∧
    UnmarshalCmd ⟨RpcVersion1, "sendrawtransaction", [.jstr "1122", .jbool false], .jint 1⟩ =
      Except.ok ⟨"sendrawtransaction", [some (.vStr "1122"), some (.vFeeBool false)]⟩ ∧
    UnmarshalCmd ⟨RpcVersion1, "sendrawtransaction", [.jstr "1122", .jint 1234], .jint 1⟩ =
      Except.ok ⟨"sendrawtransaction", [some (.vStr "1122"), some (.vFeeRate 1234)]⟩ :=
  ⟨rfl, fun _ => rfl, fun _ => rfl, fun _ => rfl, fun _ => rfl,
    by decide, by decide, by decide, by decide, by decide⟩

lemma decodeField_isOk_eq_legalShape (t : FieldType) (j : JVal) :
    (decodeField t j).isOk = legalShape t j := by
  cases t <;> cases j <;> try rfl
  case tStrArr.jarr xs =>
    cases hd : decodeStrList xs <;>
      simp [decodeField, legalShape, hd, Except.isOk, Except.toBool]
  case tTxInputArr.jarr xs =>
    cases hd : decodeTxInputList xs <;>
      simp [decodeField, legalShape, hd, Except.isOk, Except.toBool]
  case tRange.jarr xs =>
    rcases xs with _ | ⟨a, _ | ⟨b, rest⟩⟩
    · rfl
    · cases a <;> rfl
    · cases a <;> cases b <;> rcases rest with _ | ⟨c, rest⟩ <;> rfl
  case tTsOrNow.jstr s =>
    cases hb : (s == "now") <;>
      simp [decodeField, legalShape, hb, Except.isOk, Except.toBool]

lemma decodeField_error_invalidType (t : FieldType) (j : JVal) (e : Error)
    (h : decodeField t j = Except.error e) :
    e.errorCode = ErrorCode.ErrInvalidType := by
  cases t <;> cases j <;> simp only [decodeField] at h <;>
    first
      | exact Except.noConfusion h
      | rw [← Except.error.inj h]
      | skip
  case tStrArr.jarr xs =>
    cases hd : decodeStrList xs
    · simp only [hd] at h
      rw [← Except.error.inj h]
    · simp only [hd] at h
      exact Except.noConfusion h
  case tTxInputArr.jarr xs =>
    cases hd : decodeTxInputList xs
    · simp only [hd] at h
      rw [← Except.error.inj h]
    · simp only [hd] at h
      exact Except.noConfusion h
  case tRange.jarr xs =>
    rcases xs with _ | ⟨a, _ | ⟨b, rest⟩⟩
    · rw [← Except.error.inj h]
    · cases a <;> rw [← Except.error.inj h]
    · cases a <;> cases b <;> rcases rest with _ | ⟨c, rest⟩ <;>
        first
          | exact Except.noConfusion h
          | rw [← Except.error.inj h]
  case tTsOrNow.jstr s =>
    cases hb : (s == "now")
    · rw [hb] at h
      simp only [Bool.false_eq_true, if_false] at h
      rw [← Except.error.inj h]
    · rw [hb] at h
      simp only [if_true] at h
      exact Except.noConfusion h

/-- C8: decoding succeeds exactly on the JSON shapes in the declared type's
legal set; every decode failure carries error code `ErrInvalidType` (no
silent coercion); and on the union types the legal shapes decode in their
fixed priority order, the structurally matching shape winning. -/
theorem decode_rejects_illegal_shapes :
    (∀ t j, (∃ v, decodeField t j = Except.ok v) ↔ legalShape t j = true) ∧
    (∀ t j e, decodeField t j = Except.error e →
      e.errorCode = ErrorCode.ErrInvalidType) ∧
    (∀ b, decodeField .tFee (.jbool b) = Except.ok (.vFeeBool b)) ∧
    (∀ n : Int, decodeField .tFee (.jint n) = Except.ok (.vFeeRate n)) ∧
    (∀ n : Int, decodeField .tRange (.jint n) = Except.ok (.vRangeSingle n)) ∧
    (∀ a c : Int, decodeField .tRange (.jarr [.jint a, .jint c]) =
      Except.ok (.vRangePair a c)) ∧
    (∀ n : Int, decodeField .tTsOrNow (.jint n) = Except.ok (.vTsInt n)) ∧
    (decodeField .tTsOrNow (.jstr "now") = Except.ok .vTsNow) ∧
    (∀ s, decodeField .tHashOrHeight (.jstr s) = Except.ok (.vHashStr s)) ∧
    (∀ n : Int, decodeField .tHashOrHeight (.jint n) = Except.ok (.vHeight n)) := by
  refine ⟨?_, decodeField_error_invalidType, fun _ => rfl, fun _ => rfl,
    fun _ => rfl, fun _ _ => rfl, fun _ => rfl, rfl, fun _ => rfl, fun _ => rfl⟩
  intro t j
  rw [← decodeField_isOk_eq_legalShape]
  constructor
  · rintro ⟨v, hv⟩
    rw [hv]
    rfl
  · intro hok
    cases hd : decodeField t j with
    | ok v => exact ⟨v, rfl⟩
    | error e =>
      rw [hd] at hok
      simp [Except.isOk, Except.toBool] at hok

/-- Witness for the C8 theorem: a string is not a legal shape for the range
union, and decoding it fails with error code `ErrInvalidType`. -/
theorem decode_rejects_illegal_shapes_witness :
    decodeField FieldType.tRange (JVal.jstr "abc") =
      Except.error ⟨ErrorCode.ErrInvalidType,
        "json value cannot be decoded into the declared field type"⟩ ∧
    Error.errorCode ⟨ErrorCode.ErrInvalidType,
        "json value cannot be decoded into the declared field type"⟩ =
      ErrorCode.ErrInvalidType :=
  ⟨by decide,
    decode_rejects_illegal_shapes.2.1 FieldType.tRange (JVal.jstr "abc")
      ⟨ErrorCode.ErrInvalidType,
        "json value cannot be decoded into the declared field type"⟩ (by decide)⟩

/-- C9: a command marshalled with no request id (a notification) carries the
literal JSON null in the envelope's id slot, while a supplied scalar id is
carried through; concretely, the `blockconnected` notification and a
`getblock` command marshal to their exact golden fixtures. -/
theorem notification_id_null :
    (∀ (ver : String) (c : Cmd) (d : MethodDesc),
      lookupMethod c.method = some d → c.conforms d = true →
      ∃ s, MarshalCmd ver none c = Except.ok (s ++ ",\"id\":null\x7d")) ∧
    (∀ (ver : String) (c : Cmd) (d : MethodDesc) (n : Int),
      lookupMethod c.method = some d → c.conforms d = true →
      ∃ s, MarshalCmd ver (some (.jint n)) c =
        Except.ok (s ++ (",\"id\":" ++ toString n ++ "\x7d"))) ∧
    MarshalCmd RpcVersion1 none (NewBlockConnectedNtfn "123" 100000 123456789) =
      Except.ok "\x7b\"jsonrpc\":\"1.0\",\"method\":\"blockconnected\",\"params\":[\"123\",100000,123456789],\"id\":null\x7d" ∧
    MarshalCmd RpcVersion1 (some (.jint 1)) (NewGetBlockCmd "123" (some 2)) =
      Except.ok "\x7b\"jsonrpc\":\"1.0\",\"method\":\"getblock\",\"params\":[\"123\",2],\"id\":1\x7d" := by
  refine ⟨?_, ?_, by decide, by decide⟩
  · intro ver c d hlook hconf
    simp only [MarshalCmd, marshalRequest, hlook, hconf, if_true, Except.map]
    exact ⟨_, rfl⟩
  · intro ver c d n hlook hconf
    simp only [MarshalCmd, marshalRequest, hlook, hconf, if_true, Except.map]
    exact ⟨_, rfl⟩

/-- Witness for the C9 theorem at the `blockconnected` notification. -/
theorem notification_id_null_witness :
    lookupMethod (Cmd.method (NewBlockConnectedNtfn "123" 100000 123456789)) =
      some blockconnectedDesc ∧
    Cmd.conforms (NewBlockConnectedNtfn "123" 100000 123456789) blockconnectedDesc = true ∧
    (∃ s, MarshalCmd RpcVersion1 none (NewBlockConnectedNtfn "123" 100000 123456789) =
      Except.ok (s ++ ",\"id\":null\x7d")) :=
  ⟨by decide, by decide,
    notification_id_null.1 RpcVersion1 (NewBlockConnectedNtfn "123" 100000 123456789)
      blockconnectedDesc (by decide) (by decide)⟩

/-- C10: in `NewCmd`'s loose argument list, the exact string "null" for an
optional field leaves the field absent (in general, and concretely matching
the direct constructor given nil), and a string argument for a field whose
declared type is not string is interpreted as JSON text and decoded into the
declared type, e.g. into a slice of transaction inputs for `lockunspent`. -/
theorem newCmd_string_args_json_decoded :
    (∀ f : FieldMeta, f.optional = true → assignLoose f (.vStr "null") = Except.ok none) ∧
    NewCmd "lockunspent" [.vBool true, .vStr "[\x7b\"txid\":\"123\",\"vout\":1\x7d]"] =
      Except.ok (NewLockUnspentCmd true [⟨"123", 1⟩]) ∧
    NewCmd "createwallet" [.vStr "mywallet", .vStr "null", .vStr "null", .vStr "secret"] =
      Except.ok (NewCreateWalletCmd "mywallet" none none (some "secret") none) ∧
    NewCmd "searchrawtransactions"
        [.vStr "1Address", .vInt 0, .vInt 5, .vInt 10, .vStr "null", .vBool true,
          .vStrArr ["1Address"]] =
      Except.ok (NewSearchRawTransactionsCmd "1Address" (some 0) (some 5) (some 10)
        none (some true) (some ["1Address"])) := by
  refine ⟨?_, by decide, by decide, by decide⟩
  intro f h
  simp [assignLoose, h]

/-- Witness for the C10 theorem at the `createwallet` disable-private-keys
field metadata. -/
theorem newCmd_string_args_json_decoded_witness :
    FieldMeta.optional ⟨.tBool, true, some (.vBool false)⟩ = true ∧
    assignLoose ⟨.tBool, true, some (.vBool false)⟩ (.vStr "null") = Except.ok none :=
  ⟨by decide,
    newCmd_string_args_json_decoded.1 ⟨.tBool, true, some (.vBool false)⟩ (by decide)⟩

end PinJson
